import Mathlib

/-
Verification of the binary-compatibility packaging pipeline of
pc-ble-driver-py: the wheel selector and build-output matcher of
.tox_find_wheel.py, the linkage verifier verify_so_python_version,
the dependency bundler bundle_into_wheel.py, and the archive patcher
fix_wheel_python_version.py, shallowly embedded as pure functions
over snapshots of the filesystem state they read and write.
-/

namespace PcBleDriver

/-! ### String machinery

Python's `needle in haystack` substring test, modelled on `List Char`.
`startsWithL n h` holds when `n` is a prefix of `h`; `containsL n h`
when `n` occurs contiguously inside `h`. -/

def startsWithL : List Char → List Char → Bool
  | [], _ => true
  | _ :: _, [] => false
  | c :: cs, d :: ds => c == d && startsWithL cs ds

def containsL (n : List Char) : List Char → Bool
  | [] => startsWithL n []
  | h :: t => startsWithL n (h :: t) || containsL n t

/-- Python `pat in hay` on strings. -/
def strContains (hay pat : String) : Bool :=
  containsL pat.data hay.data

/-- Python's whitespace class for `str.strip` / `str.split`, restricted to
the characters that can occur here (space, tab, newline, carriage return). -/
def pySpace (c : Char) : Bool :=
  c.toNat == 32 || c.toNat == 9 || c.toNat == 10 || c.toNat == 13

/-- `line.strip().split()[0]`: the first whitespace-delimited token. -/
def firstToken (l : String) : String :=
  String.mk ((l.data.dropWhile pySpace).takeWhile (fun c => !(pySpace c)))

/-- Strict lexicographic order on char lists (Python's `str` ordering,
which `sorted` would use). -/
def lexLtL : List Char → List Char → Bool
  | [], [] => false
  | [], _ :: _ => true
  | _ :: _, [] => false
  | c :: cs, d :: ds => decide (c < d) || (c == d && lexLtL cs ds)

def strLexLt (a b : String) : Bool := lexLtL a.data b.data

/-! ### Linkage Verifier — `verify_so_python_version` (.tox_find_wheel.py)

The function runs `otool -L` on the library and inspects the printed
dependency table.  We model the `otool` invocation's outcome as
`Option (List String)`: `none` when the subprocess raises (tool missing,
non-zero exit via `check=True`, unreadable or malformed file), and
`some lines` for the lines of its stdout (the needles searched for are
newline-free, so a substring test on the whole stdout is a substring
test on some line).  The source returns a `bool` (`True` = pass); its
three `return True` sites and the one `return False` site are
distinguishable control-flow branches, which we record as a
three-valued result together with the warning lines the branch prints.
The bool the source returns is `verifyPass` below. -/

inductive VResult where
  | matched
  | mismatched
  | inconclusive
deriving DecidableEq, Repr

def verify_so_python_version (otool_out : Option (List String))
    (expected_version : String) : VResult × List String :=
  match otool_out with
  | none => (.inconclusive, ["Could not verify"])
  | some lines =>
    let expected_lib := "libpython" ++ expected_version ++ ".dylib"
    if lines.any (fun l => strContains l expected_lib) ||
       lines.any (fun l =>
         strContains l ("Python.framework/Versions/" ++ expected_version)) then
      (.matched, [])
    else
      match lines.find? (fun l =>
          strContains l "libpython" || strContains l "Python.framework") with
      | some l => (.mismatched, ["is linked to wrong Python version: " ++ l])
      | none => (.inconclusive, [])

/-- The boolean the source actually returns: only the mismatch branch
returns `False`. -/
def verifyPass (r : VResult) : Bool :=
  match r with
  | .mismatched => false
  | _ => true

/-! ### Build-Output Matcher (`main` of .tox_find_wheel.py, lines 225-242)

`main` globs the per-version `_skbuild` build directories and takes the
first one whose path contains `"-" + python_version`; when none matches
it returns a failure exit code instead of using any directory. -/

def match_build_dir (build_dirs : List String) (python_version : String) :
    Option String :=
  build_dirs.find? (fun d => strContains d ("-" ++ python_version))

/-! ### Candidate Selector — `find_wheel` (.tox_find_wheel.py)

`find_wheel` tries an ordered list of glob patterns over `dist/` and,
at the first pattern with matches, prefers a wheel whose basename
contains the exact python tag, else takes the first glob result.

Glob patterns here use only literals and `*`, so a pattern is a list of
`GPart`s.  `glob.glob` returns the directory's entries in directory
order (it does not sort), so we model the snapshot of `dist/` as a
`List String` of basenames in that order and glob as an order-preserving
filter.  All the source's patterns start with the literal `dist/`
followed by `*`, and the tie-break looks at `os.path.basename`, so
working with basenames is faithful.  The `os.path.exists` re-check in
the source always succeeds on a snapshot. -/

inductive GPart where
  | star : GPart
  | lit : List Char → GPart

def gmatch : List GPart → List Char → Bool
  | [], s => s.isEmpty
  | .lit l :: ps, s => startsWithL l s && gmatch ps (s.drop l.length)
  | .star :: ps, s => (s.tails).any (fun t => gmatch ps t)

/-- `dist/*{tag}-abi3-*{arch}*_bundled.whl` -/
def pat1 (tag arch : String) : List GPart :=
  [.star, .lit (tag ++ "-abi3-").data, .star, .lit arch.data, .star,
   .lit "_bundled.whl".data]

/-- `dist/*{tag}-abi3-*_bundled.whl` -/
def pat2 (tag : String) : List GPart :=
  [.star, .lit (tag ++ "-abi3-").data, .star, .lit "_bundled.whl".data]

/-- `dist/*{tag}-abi3-*.whl` -/
def pat3 (tag : String) : List GPart :=
  [.star, .lit (tag ++ "-abi3-").data, .star, .lit ".whl".data]

/-- `dist/*cp38-abi3-*.whl`, appended only when the tag number is ≥ 38 -/
def pat4 : List GPart :=
  [.star, .lit "cp38-abi3-".data, .star, .lit ".whl".data]

/-- `dist/*universal*.whl` -/
def pat5 : List GPart := [.star, .lit "universal".data, .star, .lit ".whl".data]

/-- `dist/*universal2*.whl` -/
def pat6 : List GPart := [.star, .lit "universal2".data, .star, .lit ".whl".data]

/-- `dist/*{tag}-abi3-*{arch}*.whl` -/
def pat7 (tag arch : String) : List GPart :=
  [.star, .lit (tag ++ "-abi3-").data, .star, .lit arch.data, .star,
   .lit ".whl".data]

/-- `dist/*{arch}*.whl` -/
def pat8 (arch : String) : List GPart :=
  [.star, .lit arch.data, .star, .lit ".whl".data]

/-- `dist/*{tag}*.whl` -/
def pat9 (tag : String) : List GPart :=
  [.star, .lit tag.data, .star, .lit ".whl".data]

/-- `dist/*.whl` -/
def pat10 : List GPart := [.star, .lit ".whl".data]

/-- The ordered pattern list of `find_wheel`; `fallback38` is the
`python_version_num >= 38` test that guards the cp38-abi3 pattern. -/
def wheelPatterns (tag arch : String) (fallback38 : Bool) : List (List GPart) :=
  [pat1 tag arch, pat2 tag, pat3 tag] ++
  (if fallback38 then [pat4] else []) ++
  [pat5, pat6, pat7 tag arch, pat8 arch, pat9 tag, pat10]

/-- The tie-break at a non-empty glob result: prefer the first wheel whose
basename contains the tag, else the first glob result. -/
def selectWheel (ws : List String) (tag : String) : Option String :=
  match ws with
  | [] => none
  | w :: rest =>
    match (w :: rest).filter (fun x => strContains x tag) with
    | [] => some w
    | e :: _ => some e

def firstMatch (ps : List (List GPart)) (listing : List String)
    (tag : String) : Option String :=
  match ps with
  | [] => none
  | p :: rest =>
    match listing.filter (fun f => gmatch p f.data) with
    | [] => firstMatch rest listing tag
    | w :: ws => selectWheel (w :: ws) tag

def find_wheel (listing : List String) (tag arch : String)
    (fallback38 : Bool) : Option String :=
  firstMatch (wheelPatterns tag arch fallback38) listing tag

/-! ### Dependency Bundler — `bundle_dependencies` (bundle_into_wheel.py)

A consumer shared library of the wheel payload is modelled by its name
inside `lib/`, its rpath entries, and the remaining lines of its
`otool -l` load-command output: the source decides "rpath already
present" by a substring test on the whole `otool -l` stdout.  The wheel
is its `.so` files, the names present in `lib/deps`, and the remaining
payload.  Inputs: the `VCPKG_LIB_DIR` listing (`none` when the directory
is missing) and the wheel (`none` when the file is missing). -/

structure SoFile where
  name : String
  rpaths : List String
  otherLoad : List String
deriving DecidableEq, Repr

structure Wheel where
  sos : List SoFile
  depsEntries : List String
  payload : List String
deriving DecidableEq, Repr

def depsRpath : String := "@loader_path/deps"

def libs_to_bundle : List String :=
  ["libnrf-ble-driver-sd_api_v2.4.1.4.dylib",
   "libnrf-ble-driver-sd_api_v5.4.1.4.dylib"]

/-- `'@loader_path/deps' in otool -l stdout` for one library. -/
def soMentionsDeps (so : SoFile) : Bool :=
  (so.rpaths ++ so.otherLoad).any (fun l => strContains l depsRpath)

/-- `install_name_tool -add_rpath '@loader_path/deps'` guarded by the
substring check on the `otool -l` output. -/
def ensure_deps_rpath (so : SoFile) : SoFile :=
  if soMentionsDeps so then so
  else { so with rpaths := so.rpaths ++ [depsRpath] }

/-- Step for each `lib/*.so`: skipped when `'deps' in str(so_file)`. -/
def bundleSo (so : SoFile) : SoFile :=
  if strContains so.name "deps" then so else ensure_deps_rpath so

/-- The state of the wheel after the scratch directory is repacked:
dependencies copied into `lib/deps` (overwriting copies from a previous
pass) and every consumer `.so` given the deps rpath if absent. -/
def bundleCore (existing : List String) (w : Wheel) : Wheel :=
  { sos := w.sos.map bundleSo
    depsEntries :=
      w.depsEntries ++ existing.filter (fun l => !(w.depsEntries.contains l))
    payload := w.payload }

structure BundleResult where
  ok : Bool
  wheel : Option Wheel
  warnings : List String
deriving DecidableEq, Repr

def bundle_dependencies (vcpkg_lib : Option (List String))
    (w : Option Wheel) : BundleResult :=
  match w with
  | none => ⟨false, none, []⟩
  | some wh =>
    match vcpkg_lib with
    | none => ⟨false, some wh, ["VCPKG_LIB_DIR not found"]⟩
    | some files =>
      let missing_warnings :=
        (libs_to_bundle.filter (fun l => !(files.contains l))).map
          (fun l => l ++ " not found (may not be needed)")
      match libs_to_bundle.filter (fun l => files.contains l) with
      | [] => ⟨false, some wh, missing_warnings ++ ["No libraries to bundle"]⟩
      | e :: es =>
        ⟨true, some (bundleCore (e :: es) wh), missing_warnings⟩

/-! ### Archive Patcher — `fix_so_file` / `fix_wheel`
(fix_wheel_python_version.py)

`fix_so_file` parses `otool -L` output: the first line names the file
itself (`so_path + ":"`), each further line renders one dependency entry
indented by a tab and followed by the compatibility/current version
suffix in parentheses.  Lines containing both `@rpath/libpython` and
`.dylib` contribute `line.strip().split()[0]` as the old reference, and
each old reference is rewritten to `@rpath/Python` with
`install_name_tool -change`, which replaces the dependency entries equal
to it. -/

def suffixCompat : String :=
  " (compatibility version 0.0.0, current version 0.0.0)"

def soLine (p : String) : String := "\t" ++ p ++ suffixCompat

def otoolLines (soPath : String) (deps : List String) : List String :=
  (soPath ++ ":") :: deps.map soLine

def needsFix (l : String) : Bool :=
  strContains l "@rpath/libpython" && strContains l ".dylib"

/-- The per-dependency-entry form of `needsFix`: whether the rendered
`otool -L` line of this entry matches the rewrite condition. -/
def needsFixD (d : String) : Bool :=
  strContains d "@rpath/libpython" && strContains d ".dylib"

def fix_so_file (soPath : String) (deps : List String) :
    Bool × List String :=
  let changes := ((otoolLines soPath deps).filter needsFix).map firstToken
  let newDeps := changes.foldl
    (fun ds old => ds.map (fun d => if d == old then "@rpath/Python" else d))
    deps
  (!changes.isEmpty, newDeps)

/-- Wheel as seen by `fix_wheel`: `.so` entries as (path, dependency
entries), plus the other archive entries. -/
structure PWheel where
  sos : List (String × List String)
  others : List String
deriving DecidableEq, Repr

/-- `fix_wheel`: patches every extracted `.so`; when no file changed it
returns without backing up or repacking, otherwise it copies the original
to `<wheel>.whl.backup` (second component `true`) and repacks from the
scratch directory. -/
def fix_wheel (w : PWheel) : PWheel × Bool :=
  let fixed_any := w.sos.any (fun so => (fix_so_file so.1 so.2).1)
  if fixed_any then
    ({ sos := w.sos.map (fun so => (so.1, (fix_so_file so.1 so.2).2))
       others := w.others }, true)
  else (w, false)

/-! ### Lemmas about the string machinery -/

theorem sdata_append (a b : String) : (a ++ b).data = a.data ++ b.data := by
  cases a; cases b; rfl

theorem startsWithL_refl : ∀ l : List Char, startsWithL l l = true := by
  intro l
  induction l with
  | nil => rfl
  | cons c cs ih => simp [startsWithL, ih]

theorem containsL_refl (l : List Char) : containsL l l = true := by
  cases l with
  | nil => rfl
  | cons c cs => simp [containsL, startsWithL_refl]

theorem strContains_self (s : String) : strContains s s = true :=
  containsL_refl s.data

theorem startsWithL_append_right {n a : List Char} (b : List Char)
    (h : startsWithL n a = true) : startsWithL n (a ++ b) = true := by
  induction n generalizing a with
  | nil => rfl
  | cons c cs ih =>
    cases a with
    | nil => simp [startsWithL] at h
    | cons d ds =>
      simp [startsWithL] at h ⊢
      exact ⟨h.1, ih h.2⟩

theorem containsL_cons {n t : List Char} (c : Char)
    (h : containsL n t = true) : containsL n (c :: t) = true := by
  simp [containsL, h]

theorem containsL_nil_left : ∀ h : List Char, containsL [] h = true := by
  intro h
  induction h with
  | nil => rfl
  | cons c t ih => simp [containsL, startsWithL]

theorem containsL_append_left {n a : List Char} (b : List Char)
    (h : containsL n a = true) : containsL n (a ++ b) = true := by
  induction a with
  | nil =>
    cases n with
    | nil => exact containsL_nil_left b
    | cons c cs => simp [containsL, startsWithL] at h
  | cons d ds ih =>
    rcases Bool.or_eq_true_iff.mp ((by simpa [containsL] using h :
        (startsWithL n (d :: ds) || containsL n ds) = true)) with h1 | h2
    · have : startsWithL n ((d :: ds) ++ b) = true := startsWithL_append_right b h1
      simp [containsL]
      exact Or.inl this
    · have : containsL n (ds ++ b) = true := ih h2
      simp [containsL]
      exact Or.inr this

theorem startsWithL_sub_append {a b s : List Char}
    (h : startsWithL (a ++ b) s = true) : startsWithL a s = true := by
  induction a generalizing s with
  | nil => rfl
  | cons c cs ih =>
    cases s with
    | nil => simp [startsWithL] at h
    | cons d ds =>
      simp [startsWithL] at h ⊢
      exact ⟨h.1, ih h.2⟩

theorem containsL_sub_append {a b h : List Char}
    (hc : containsL (a ++ b) h = true) : containsL a h = true := by
  induction h with
  | nil =>
    cases a with
    | nil => rfl
    | cons c cs => simp [containsL, startsWithL] at hc
  | cons x t ih =>
    rcases Bool.or_eq_true_iff.mp ((by simpa [containsL] using hc :
        (startsWithL (a ++ b) (x :: t) || containsL (a ++ b) t) = true)) with h1 | h2
    · have : startsWithL a (x :: t) = true := startsWithL_sub_append h1
      simp [containsL]
      exact Or.inl this
    · have : containsL a t = true := ih h2
      exact containsL_cons x this

/-- A prefix of a concatenation is a prefix of the left part, or extends
exactly past it with a prefix of the right part. -/
theorem startsWithL_append_cases : ∀ (n a b : List Char),
    startsWithL n (a ++ b) = true →
    startsWithL n a = true ∨ ∃ t, n = a ++ t ∧ startsWithL t b = true := by
  intro n a
  induction a generalizing n with
  | nil => exact fun b h => Or.inr ⟨n, rfl, h⟩
  | cons d ds ih =>
    intro b h
    cases n with
    | nil => exact Or.inl rfl
    | cons c cs =>
      have h' : (c == d && startsWithL cs (ds ++ b)) = true := by
        simpa [startsWithL] using h
      have hcd : c = d := eq_of_beq (Bool.and_eq_true_iff.mp h').1
      rcases ih cs b (Bool.and_eq_true_iff.mp h').2 with h1 | ⟨t, ht, htb⟩
      · exact Or.inl (by simp [startsWithL, hcd, h1])
      · exact Or.inr ⟨t, by simp [hcd, ht], htb⟩

/-- An occurrence of `n` inside `a ++ b` lies inside `a`, lies inside `b`,
or crosses the boundary, in which case the first character of `b` is a
character of `n`. -/
theorem containsL_append_cases : ∀ (n a b : List Char),
    containsL n (a ++ b) = true →
    containsL n a = true ∨ containsL n b = true ∨
      ∃ c, b.head? = some c ∧ c ∈ n := by
  intro n a
  induction a with
  | nil => exact fun b h => Or.inr (Or.inl h)
  | cons d ds ih =>
    intro b h
    have h' : (startsWithL n ((d :: ds) ++ b) || containsL n (ds ++ b)) = true := by
      simpa [containsL] using h
    rcases Bool.or_eq_true_iff.mp h' with h1 | h2
    · rcases startsWithL_append_cases n (d :: ds) b h1 with hA | ⟨t, hn, htb⟩
      · exact Or.inl (by simp [containsL, hA])
      · cases t with
        | nil =>
          subst hn
          exact Or.inl (by simpa using containsL_refl (d :: ds))
        | cons c t' =>
          cases b with
          | nil => simp [startsWithL] at htb
          | cons e b' =>
            have hce : c = e := eq_of_beq (Bool.and_eq_true_iff.mp
              (by simpa [startsWithL] using htb)).1
            refine Or.inr (Or.inr ⟨e, rfl, ?_⟩)
            subst hn; subst hce
            simp
    · rcases ih b h2 with h1 | h2 | h3
      · exact Or.inl (containsL_cons d h1)
      · exact Or.inr (Or.inl h2)
      · exact Or.inr (Or.inr h3)

/-- A line containing `libpython{v}.dylib` contains `libpython`. -/
theorem strContains_expected_lib {l v : String}
    (h : strContains l ("libpython" ++ v ++ ".dylib") = true) :
    strContains l "libpython" = true := by
  unfold strContains at h ⊢
  rw [sdata_append, sdata_append] at h
  exact containsL_sub_append (containsL_sub_append h)

/-- A line containing `Python.framework/Versions/{v}` contains
`Python.framework`. -/
theorem strContains_framework {l v : String}
    (h : strContains l ("Python.framework/Versions/" ++ v) = true) :
    strContains l "Python.framework" = true := by
  unfold strContains at h ⊢
  rw [sdata_append] at h
  have h1 : containsL "Python.framework/Versions/".data l.data = true :=
    containsL_sub_append h
  have e : "Python.framework/Versions/".data =
      "Python.framework".data ++ "/Versions/".data := by decide
  rw [e] at h1
  exact containsL_sub_append h1

/-! ### Claim theorems: Linkage Verifier and Build-Output Matcher -/

/-- C2 (counterexample): the claim says a runtime reference naming a
version other than the expected one yields MISMATCH, but a framework
reference to 3.10 checked against expected "3.1" yields MATCH, because
the expected-version test is a substring test over the whole output and
`Python.framework/Versions/3.1` is a substring of
`Python.framework/Versions/3.10`. -/
theorem c2_counterexample :
    (verify_so_python_version
      (some ["\t/Library/Frameworks/Python.framework/Versions/3.10/Python (compatibility version 3.10.0, current version 3.10.0)"])
      "3.1").1 = VResult.matched ∧ VResult.matched ≠ VResult.mismatched :=
  ⟨by decide, by decide⟩

/-- C2 (amended): verify returns MATCH whenever the expected library name
`libpython{V}.dylib` (or the expected framework-version string) occurs as
a substring of the dependency-table output; MISMATCH when neither expected
substring occurs anywhere in the output and some line references the
runtime library; and INCONCLUSIVE when no line references the runtime
library at all. -/
theorem c2_amended :
    (∀ lines v,
      lines.any (fun l => strContains l ("libpython" ++ v ++ ".dylib")) = true →
      (verify_so_python_version (some lines) v).1 = VResult.matched) ∧
    (∀ lines v l₀,
      lines.any (fun l => strContains l ("libpython" ++ v ++ ".dylib")) = false →
      lines.any (fun l =>
        strContains l ("Python.framework/Versions/" ++ v)) = false →
      lines.find? (fun l =>
        strContains l "libpython" || strContains l "Python.framework") = some l₀ →
      (verify_so_python_version (some lines) v).1 = VResult.mismatched) ∧
    (∀ lines v,
      (∀ l ∈ lines, strContains l "libpython" = false ∧
        strContains l "Python.framework" = false) →
      (verify_so_python_version (some lines) v).1 = VResult.inconclusive) := by
  refine ⟨?_, ?_, ?_⟩
  · intro lines v h
    simp [verify_so_python_version, h]
  · intro lines v l₀ h1 h2 h3
    simp [verify_so_python_version, h1, h2, h3]
  · intro lines v h
    have h1 : lines.any
        (fun l => strContains l ("libpython" ++ v ++ ".dylib")) = false := by
      rw [List.any_eq_false]
      intro l hl hc
      exact absurd (strContains_expected_lib hc) (by simp [(h l hl).1])
    have h2 : lines.any
        (fun l => strContains l ("Python.framework/Versions/" ++ v)) = false := by
      rw [List.any_eq_false]
      intro l hl hc
      exact absurd (strContains_framework hc) (by simp [(h l hl).2])
    have h3 : lines.find? (fun l =>
        strContains l "libpython" || strContains l "Python.framework") = none := by
      rw [List.find?_eq_none]
      intro l hl
      simp [(h l hl).1, (h l hl).2]
    simp [verify_so_python_version, h1, h2, h3]

/-- C2 (witness): the three amended clauses at concrete dependency
tables — expected version present, wrong version only, and no runtime
reference. -/
theorem c2_witness :
    (verify_so_python_version
      (some ["\t@rpath/libpython3.12.dylib (compatibility version 3.12.0, current version 3.12.0)"])
      "3.12").1 = VResult.matched ∧
    (verify_so_python_version
      (some ["\t@rpath/libpython3.10.dylib (compatibility version 3.10.0, current version 3.10.0)"])
      "3.12").1 = VResult.mismatched ∧
    (verify_so_python_version
      (some ["\t/usr/lib/libSystem.B.dylib (compatibility version 1.0.0)"])
      "3.12").1 = VResult.inconclusive :=
  ⟨c2_amended.1 _ "3.12" (by decide),
   c2_amended.2.1 _ "3.12"
     "\t@rpath/libpython3.10.dylib (compatibility version 3.10.0, current version 3.10.0)"
     (by decide) (by decide) (by decide),
   c2_amended.2.2 _ "3.12" (by decide)⟩

/-- C6: when the inspection tool cannot run (subprocess raises: tool
missing, non-zero exit, unreadable or malformed file), verify returns
the pass value with a logged warning — the inconclusive branch, never
the mismatch branch, and not the silent match branch. -/
theorem c6_fail_open : ∀ v : String,
    verify_so_python_version none v =
      (VResult.inconclusive, ["Could not verify"]) ∧
    (verify_so_python_version none v).1 ≠ VResult.mismatched ∧
    (verify_so_python_version none v).1 ≠ VResult.matched ∧
    verifyPass (verify_so_python_version none v).1 = true ∧
    (verify_so_python_version none v).2 ≠ [] := by
  intro v
  refine ⟨rfl, ?_, ?_, rfl, ?_⟩ <;> simp [verify_so_python_version, verifyPass]

/-- C9: when the dependency table names the expected runtime version
somewhere, verify returns MATCH with no warning printed, even if another
reference names a different runtime version — the whole-output substring
test for the expected version runs before the per-line wrong-version
scan, so the wrong-version reference is never reported. -/
theorem c9_dual_linked : ∀ (lines : List String) (v v' l l' : String),
    l ∈ lines → strContains l ("libpython" ++ v ++ ".dylib") = true →
    l' ∈ lines → strContains l' ("libpython" ++ v') = true → v' ≠ v →
    verify_so_python_version (some lines) v = (VResult.matched, []) := by
  intro lines v v' l l' hl hc _ _ _
  have h1 : lines.any
      (fun x => strContains x ("libpython" ++ v ++ ".dylib")) = true :=
    List.any_eq_true.mpr ⟨l, hl, hc⟩
  simp [verify_so_python_version, h1]

/-- C9 (witness): a table linking both libpython3.12 and libpython3.10,
verified against "3.12", passes with no warning. -/
theorem c9_witness :
    verify_so_python_version (some
      ["\t@rpath/libpython3.12.dylib (compatibility version 3.12.0, current version 3.12.0)",
       "\t@rpath/libpython3.10.dylib (compatibility version 3.10.0, current version 3.10.0)"])
      "3.12" = (VResult.matched, []) :=
  c9_dual_linked _ "3.12" "3.10"
    "\t@rpath/libpython3.12.dylib (compatibility version 3.12.0, current version 3.12.0)"
    "\t@rpath/libpython3.10.dylib (compatibility version 3.10.0, current version 3.10.0)"
    (by decide) (by decide) (by decide) (by decide) (by decide)

/-- C1 (counterexample): with build directories for 3.10 and 3.1 both
present (3.10 first, as a directory scan may order them), requesting
"3.1" selects the 3.10 directory: the anchored needle `-3.1` is a
substring of `-3.10`, so the anchoring does not distinguish this pair. -/
theorem c1_counterexample :
    match_build_dir
      ["_skbuild/macosx-26.0-arm64-3.10/cmake-install/pc_ble_driver_py/lib",
       "_skbuild/macosx-26.0-arm64-3.1/cmake-install/pc_ble_driver_py/lib"]
      "3.1"
      = some "_skbuild/macosx-26.0-arm64-3.10/cmake-install/pc_ble_driver_py/lib" ∧
    ("_skbuild/macosx-26.0-arm64-3.10/cmake-install/pc_ble_driver_py/lib" : String) ≠
      "_skbuild/macosx-26.0-arm64-3.1/cmake-install/pc_ble_driver_py/lib" :=
  ⟨by decide, by decide⟩

/-- C1 (amended): a directory is accepted only if `"-" + V` occurs
verbatim in its path, and when no directory contains `"-" + V` the
matcher returns none rather than a best-effort directory; the anchoring
distinguishes pairs like "3.9"/"3.10" where neither anchored needle is a
substring of the other's segment, but not "3.1"/"3.10". -/
theorem c1_amended :
    (∀ dirs v d, match_build_dir dirs v = some d →
      strContains d ("-" ++ v) = true) ∧
    (∀ dirs v, (∀ d ∈ dirs, strContains d ("-" ++ v) = false) →
      match_build_dir dirs v = none) ∧
    (match_build_dir
      ["_skbuild/macosx-26.0-arm64-3.10/cmake-install/pc_ble_driver_py/lib",
       "_skbuild/macosx-26.0-arm64-3.9/cmake-install/pc_ble_driver_py/lib"]
      "3.9"
      = some "_skbuild/macosx-26.0-arm64-3.9/cmake-install/pc_ble_driver_py/lib") := by
  refine ⟨?_, ?_, by decide⟩
  · intro dirs v d h
    have h' : dirs.find? (fun x => strContains x ("-" ++ v)) = some d := h
    simpa using List.find?_some h'
  · intro dirs v h
    rw [match_build_dir, List.find?_eq_none]
    intro d hd
    simp [h d hd]

/-- C1 (witness): the accepted-only-if clause and the none clause at
concrete directory lists. -/
theorem c1_witness :
    strContains
      "_skbuild/macosx-26.0-arm64-3.9/cmake-install/pc_ble_driver_py/lib"
      "-3.9" = true ∧
    match_build_dir
      ["_skbuild/macosx-26.0-arm64-3.12/cmake-install/pc_ble_driver_py/lib"]
      "3.11" = none :=
  ⟨c1_amended.1
      ["_skbuild/macosx-26.0-arm64-3.9/cmake-install/pc_ble_driver_py/lib"]
      "3.9" _ (by decide),
   c1_amended.2.1
      ["_skbuild/macosx-26.0-arm64-3.12/cmake-install/pc_ble_driver_py/lib"]
      "3.11" (by decide)⟩

/-! ### Lemmas about the Candidate Selector -/

theorem fm_skip {p : List GPart} {l : List String}
    (ps : List (List GPart)) (t : String)
    (h : l.filter (fun f => gmatch p f.data) = []) :
    firstMatch (p :: ps) l t = firstMatch ps l t := by
  simp [firstMatch, h]

theorem fm_hit {p : List GPart} {l : List String} {w : String}
    {ws : List String} (ps : List (List GPart)) (t : String)
    (h : l.filter (fun f => gmatch p f.data) = w :: ws) :
    firstMatch (p :: ps) l t = selectWheel (w :: ws) t := by
  simp [firstMatch, h]

theorem fm_all_skip {qs : List (List GPart)} {l : List String} :
    ∀ (ps : List (List GPart)) (t : String),
    (∀ q ∈ qs, l.filter (fun f => gmatch q f.data) = []) →
    firstMatch (qs ++ ps) l t = firstMatch ps l t := by
  induction qs with
  | nil => intro ps t _; rfl
  | cons q qs ih =>
    intro ps t h
    rw [List.cons_append,
      fm_skip (qs ++ ps) t (h q (List.mem_cons_self q qs)),
      ih ps t (fun q' hq' => h q' (List.mem_cons_of_mem q hq'))]

theorem selectWheel_single (w t : String) : selectWheel [w] t = some w := by
  cases h : strContains w t <;>
    simp [selectWheel, List.filter_cons, List.filter_nil, h]

theorem selectWheel_nonempty_mem (w : String) (ws : List String)
    (t : String) :
    ∃ x, selectWheel (w :: ws) t = some x ∧ x ∈ w :: ws := by
  rcases hf : (w :: ws).filter (fun y => strContains y t) with _ | ⟨e, es⟩
  · exact ⟨w, by simp [selectWheel, hf], List.mem_cons_self w ws⟩
  · refine ⟨e, by simp [selectWheel, hf], ?_⟩
    exact List.mem_of_mem_filter (by rw [hf]; exact List.mem_cons_self e es)

theorem fm_first {l : List String} :
    ∀ (qs : List (List GPart)) (p : List GPart) (rs : List (List GPart))
      (t : String),
    (∀ q ∈ qs, l.filter (fun f => gmatch q f.data) = []) →
    l.filter (fun f => gmatch p f.data) ≠ [] →
    ∃ w, firstMatch (qs ++ p :: rs) l t = some w ∧
      w ∈ l.filter (fun f => gmatch p f.data) := by
  intro qs p rs t hqs hne
  rcases hf : l.filter (fun f => gmatch p f.data) with _ | ⟨w, ws⟩
  · exact absurd hf hne
  · obtain ⟨x, hx, hmem⟩ := selectWheel_nonempty_mem w ws t
    refine ⟨x, ?_, by rw [hf]; exact hmem⟩
    rw [fm_all_skip (p :: rs) t hqs, fm_hit rs t hf, hx]

theorem wheelPatterns_eq (tag arch : String) (fb : Bool) :
    wheelPatterns tag arch fb = pat1 tag arch :: pat2 tag :: pat3 tag ::
      ((if fb then [pat4] else []) ++
        [pat5, pat6, pat7 tag arch, pat8 arch, pat9 tag, pat10]) := by
  simp [wheelPatterns]

/-! ### Claim theorems: Candidate Selector -/

/-- C3: the selector's result comes from the first pattern in the
ordered list with at least one match: a unique bundled tag+arch archive
wins outright; with no bundled archive, a unique exact-tag archive wins
over every later fallback pattern; and in general the result is a member
of the first non-empty pattern's matches. -/
theorem c3_selector_priority :
    (∀ listing tag arch fb b,
      listing.filter (fun f => gmatch (pat1 tag arch) f.data) = [b] →
      find_wheel listing tag arch fb = some b) ∧
    (∀ listing tag arch fb e,
      listing.filter (fun f => gmatch (pat1 tag arch) f.data) = [] →
      listing.filter (fun f => gmatch (pat2 tag) f.data) = [] →
      listing.filter (fun f => gmatch (pat3 tag) f.data) = [e] →
      find_wheel listing tag arch fb = some e) ∧
    (∀ listing tag arch fb qs p rs,
      wheelPatterns tag arch fb = qs ++ p :: rs →
      (∀ q ∈ qs, listing.filter (fun f => gmatch q f.data) = []) →
      listing.filter (fun f => gmatch p f.data) ≠ [] →
      ∃ w, find_wheel listing tag arch fb = some w ∧
        w ∈ listing.filter (fun f => gmatch p f.data)) := by
  refine ⟨?_, ?_, ?_⟩
  · intro listing tag arch fb b h
    rw [find_wheel, wheelPatterns_eq, fm_hit _ tag h, selectWheel_single]
  · intro listing tag arch fb e h1 h2 h3
    rw [find_wheel, wheelPatterns_eq, fm_skip _ tag h1, fm_skip _ tag h2,
      fm_hit _ tag h3, selectWheel_single]
  · intro listing tag arch fb qs p rs hsplit hqs hne
    rw [find_wheel, hsplit]
    exact fm_first qs p rs tag hqs hne

/-- C3 (witness): the spec's end-to-end scenario — with an arm64 bundled
wheel, a plain arm64 wheel and an x86_64 wheel for cp312, requesting
tag=cp312 arch=arm64 returns the bundled wheel. -/
theorem c3_witness :
    find_wheel
      ["pkg-1.0-cp312-abi3-macosx_11_0_arm64.whl",
       "pkg-1.0-cp312-abi3-macosx_11_0_x86_64.whl",
       "pkg-1.0-cp312-abi3-macosx_11_0_arm64_bundled.whl"]
      "cp312" "arm64" true
      = some "pkg-1.0-cp312-abi3-macosx_11_0_arm64_bundled.whl" :=
  c3_selector_priority.1 _ "cp312" "arm64" true _ (by decide)

/-- C4 (counterexample): at the last pattern `dist/*.whl` both wheels
match and neither basename contains the tag; the claim says the
lexicographically first match ("aaa.whl") is returned, but the code
takes the first glob result in directory order ("zzz.whl"). -/
theorem c4_counterexample :
    find_wheel ["zzz.whl", "aaa.whl"] "cp312" "arm64" true
      = some "zzz.whl" ∧
    strLexLt "aaa.whl" "zzz.whl" = true ∧
    ["zzz.whl", "aaa.whl"].filter (fun f => gmatch pat10 f.data)
      = ["zzz.whl", "aaa.whl"] ∧
    strContains "zzz.whl" "cp312" = false ∧
    strContains "aaa.whl" "cp312" = false := by
  refine ⟨by decide, by decide, by decide, by decide, by decide⟩

/-- C4 (amended): at the first pattern with matches, the selector returns
the first match (in directory-listing order) whose basename contains the
exact runtime tag if one exists, and otherwise the first match in
directory-listing (glob) order — not lexicographic order; and for a fixed
listing the result is deterministic. -/
theorem c4_tie_break :
    (∀ listing tag arch fb qs p rs w ws e es,
      wheelPatterns tag arch fb = qs ++ p :: rs →
      (∀ q ∈ qs, listing.filter (fun f => gmatch q f.data) = []) →
      listing.filter (fun f => gmatch p f.data) = w :: ws →
      (w :: ws).filter (fun x => strContains x tag) = e :: es →
      find_wheel listing tag arch fb = some e) ∧
    (∀ listing tag arch fb qs p rs w ws,
      wheelPatterns tag arch fb = qs ++ p :: rs →
      (∀ q ∈ qs, listing.filter (fun f => gmatch q f.data) = []) →
      listing.filter (fun f => gmatch p f.data) = w :: ws →
      (w :: ws).filter (fun x => strContains x tag) = [] →
      find_wheel listing tag arch fb = some w) ∧
    (∀ listing tag arch fb r₁ r₂,
      find_wheel listing tag arch fb = r₁ →
      find_wheel listing tag arch fb = r₂ → r₁ = r₂) := by
  refine ⟨?_, ?_, ?_⟩
  · intro listing tag arch fb qs p rs w ws e es hsplit hqs hp he
    rw [find_wheel, hsplit, fm_all_skip (p :: rs) tag hqs, fm_hit rs tag hp]
    simp [selectWheel, he]
  · intro listing tag arch fb qs p rs w ws hsplit hqs hp he
    rw [find_wheel, hsplit, fm_all_skip (p :: rs) tag hqs, fm_hit rs tag hp]
    simp [selectWheel, he]
  · intro listing tag arch fb r₁ r₂ h1 h2
    rw [← h1, ← h2]

/-- C4 (witness): the tag-preferring tie-break and the glob-order
fallback at concrete listings, and determinism at a concrete listing. -/
theorem c4_witness :
    find_wheel ["other-x.whl", "b-cp311-x.whl", "a-cp311-x.whl"]
      "cp311" "arm64" false = some "b-cp311-x.whl" ∧
    find_wheel ["z.whl", "a.whl"] "cp311" "arm64" false = some "z.whl" ∧
    (Option.some "b-cp311-x.whl" : Option String) = some "b-cp311-x.whl" := by
  have h1 : find_wheel ["other-x.whl", "b-cp311-x.whl", "a-cp311-x.whl"]
      "cp311" "arm64" false = some "b-cp311-x.whl" :=
    c4_tie_break.1 ["other-x.whl", "b-cp311-x.whl", "a-cp311-x.whl"]
      "cp311" "arm64" false
      [pat1 "cp311" "arm64", pat2 "cp311", pat3 "cp311", pat5, pat6,
       pat7 "cp311" "arm64", pat8 "arm64"]
      (pat9 "cp311") [pat10]
      "b-cp311-x.whl" ["a-cp311-x.whl"] "b-cp311-x.whl" ["a-cp311-x.whl"]
      rfl (by decide) (by decide) (by decide)
  have h2 : find_wheel ["z.whl", "a.whl"] "cp311" "arm64" false
      = some "z.whl" :=
    c4_tie_break.2.1 ["z.whl", "a.whl"] "cp311" "arm64" false
      [pat1 "cp311" "arm64", pat2 "cp311", pat3 "cp311", pat5, pat6,
       pat7 "cp311" "arm64", pat8 "arm64", pat9 "cp311"]
      pat10 [] "z.whl" ["a.whl"]
      rfl (by decide) (by decide) (by decide)
  exact ⟨h1, h2,
    c4_tie_break.2.2 ["other-x.whl", "b-cp311-x.whl", "a-cp311-x.whl"]
      "cp311" "arm64" false _ _ h1 h1⟩

/-! ### Lemmas about the Dependency Bundler -/

theorem scontains_iff {l : List String} {a : String} :
    l.contains a = true ↔ a ∈ l := by
  simp [List.contains]

/-- Applying the per-library step twice changes nothing the second time:
the added rpath entry makes the substring check succeed. -/
theorem bundleSo_idem (so : SoFile) : bundleSo (bundleSo so) = bundleSo so := by
  by_cases h : strContains so.name "deps" = true
  · simp [bundleSo, h]
  · have h' : strContains so.name "deps" = false := by
      simpa using h
    by_cases hm : soMentionsDeps so = true
    · simp [bundleSo, ensure_deps_rpath, h', hm]
    · have hm' : soMentionsDeps so = false := by simpa using hm
      have hmention : soMentionsDeps
          { so with rpaths := so.rpaths ++ [depsRpath] } = true := by
        apply List.any_eq_true.mpr
        exact ⟨depsRpath, by simp, strContains_self depsRpath⟩
      simp [bundleSo, ensure_deps_rpath, h', hm', hmention]

theorem bundleCore_idem (ex : List String) (w : Wheel) :
    bundleCore ex (bundleCore ex w) = bundleCore ex w := by
  cases w with
  | mk sosL depsL payloadL =>
    have hnil : ex.filter (fun l =>
        !((depsL ++ ex.filter (fun l => !(depsL.contains l))).contains l))
        = [] := by
      rw [List.filter_eq_nil_iff]
      intro l hl
      simp only [Bool.not_eq_true', Bool.not_eq_false]
      apply scontains_iff.mpr
      by_cases hc : depsL.contains l = true
      · exact List.mem_append_left _ (scontains_iff.mp hc)
      · have hc' : depsL.contains l = false := by simpa using hc
        exact List.mem_append_right _
          (List.mem_filter.mpr ⟨hl, by simp only [hc', Bool.not_false]⟩)
    simp only [bundleCore, Wheel.mk.injEq]
    refine ⟨?_, ?_, trivial⟩
    · rw [List.map_map]
      exact List.map_congr_left (fun so _ => bundleSo_idem so)
    · rw [hnil, List.append_nil]

/-! ### Claim theorems: Dependency Bundler -/

/-- C5: with the vcpkg directory missing or with none of the dependency
source files present, bundling fails and the archive is returned
untouched (no repack happens); a missing dependency is only skipped with
a warning — when at least one source file exists bundling proceeds and
every existing dependency ends up in the deps directory. -/
theorem c5_empty_bundle :
    (∀ files w,
      libs_to_bundle.filter (fun l => files.contains l) = [] →
      (bundle_dependencies (some files) (some w)).ok = false ∧
      (bundle_dependencies (some files) (some w)).wheel = some w) ∧
    (∀ w : Wheel, (bundle_dependencies none (some w)).ok = false ∧
      (bundle_dependencies none (some w)).wheel = some w) ∧
    (∀ files w lib,
      lib ∈ libs_to_bundle → files.contains lib = false →
      libs_to_bundle.filter (fun l => files.contains l) ≠ [] →
      (bundle_dependencies (some files) (some w)).ok = true ∧
      (lib ++ " not found (may not be needed)")
        ∈ (bundle_dependencies (some files) (some w)).warnings ∧
      (∀ lib', lib' ∈ libs_to_bundle → files.contains lib' = true →
        ∃ w', (bundle_dependencies (some files) (some w)).wheel = some w' ∧
          lib' ∈ w'.depsEntries)) := by
  refine ⟨?_, fun w => ⟨rfl, rfl⟩, ?_⟩
  · intro files w h
    refine ⟨?_, ?_⟩ <;> (simp only [bundle_dependencies]; rw [h])
  · intro files w lib hmem hmiss hne
    rcases hf : libs_to_bundle.filter (fun l => files.contains l)
      with _ | ⟨e, es⟩
    · exact absurd hf hne
    refine ⟨by simp only [bundle_dependencies]; rw [hf], ?_, ?_⟩
    · have hin : lib ∈ libs_to_bundle.filter (fun l => !(files.contains l)) :=
        List.mem_filter.mpr ⟨hmem, by simp only [hmiss, Bool.not_false]⟩
      show (lib ++ " not found (may not be needed)")
        ∈ (bundle_dependencies (some files) (some w)).warnings
      simp only [bundle_dependencies]
      rw [hf]
      exact List.mem_map_of_mem _ hin
    · intro lib' hmem' hc
      refine ⟨bundleCore (e :: es) w,
        by simp only [bundle_dependencies]; rw [hf], ?_⟩
      have hin : lib' ∈ e :: es := by
        rw [← hf]
        exact List.mem_filter.mpr ⟨hmem', hc⟩
      show lib' ∈ w.depsEntries ++
        (e :: es).filter (fun l => !(w.depsEntries.contains l))
      by_cases hd : w.depsEntries.contains lib' = true
      · exact List.mem_append_left _ (scontains_iff.mp hd)
      · have hd' : w.depsEntries.contains lib' = false := by simpa using hd
        exact List.mem_append_right _
          (List.mem_filter.mpr ⟨hin, by simp only [hd', Bool.not_false]⟩)

/-- C5 (witness): no source file exists — failure, wheel unchanged; one
of the two source files exists — success with a warning naming the
missing one. -/
theorem c5_witness :
    (bundle_dependencies (some []) (some ⟨[], [], []⟩)).ok = false ∧
    (bundle_dependencies (some []) (some ⟨[], [], []⟩)).wheel
      = some ⟨[], [], []⟩ ∧
    (bundle_dependencies (some ["libnrf-ble-driver-sd_api_v2.4.1.4.dylib"])
      (some ⟨[], [], []⟩)).ok = true ∧
    ("libnrf-ble-driver-sd_api_v5.4.1.4.dylib not found (may not be needed)")
      ∈ (bundle_dependencies (some ["libnrf-ble-driver-sd_api_v2.4.1.4.dylib"])
          (some ⟨[], [], []⟩)).warnings := by
  have a := c5_empty_bundle.1 [] ⟨[], [], []⟩ (by decide)
  have b := c5_empty_bundle.2.2 ["libnrf-ble-driver-sd_api_v2.4.1.4.dylib"]
    ⟨[], [], []⟩ "libnrf-ble-driver-sd_api_v5.4.1.4.dylib"
    (by decide) (by decide) (by decide)
  exact ⟨a.1, a.2, b.1, b.2.1⟩

/-- C7 (counterexample): an archive whose consumer library already has
two `@loader_path/deps` search-path entries bundles successfully but the
library still has two entries afterwards — not exactly one, since the
substring check skips it. -/
theorem c7_counterexample :
    bundle_dependencies (some ["libnrf-ble-driver-sd_api_v2.4.1.4.dylib"])
      (some ⟨[⟨"libfoo.so", [depsRpath, depsRpath], []⟩], [], []⟩)
      = ⟨true, some ⟨[⟨"libfoo.so", [depsRpath, depsRpath], []⟩],
          ["libnrf-ble-driver-sd_api_v2.4.1.4.dylib"], []⟩,
         ["libnrf-ble-driver-sd_api_v5.4.1.4.dylib not found (may not be needed)"]⟩ ∧
    ([depsRpath, depsRpath].filter (fun r => r == depsRpath)).length = 2 :=
  ⟨by decide, by decide⟩

/-- C7 (amended): a consumer library (outside the deps directory) whose
load commands did not previously mention `@loader_path/deps` has exactly
one such search-path entry after bundling; the per-library step is
idempotent (an already-present entry is skipped, never duplicated), the
archive-level pass applies exactly that step to every consumer library,
and a second invocation of bundle returns the identical archive. -/
theorem c7_deps_rpath :
    (∀ so : SoFile, strContains so.name "deps" = false →
      soMentionsDeps so = false →
      ((bundleSo so).rpaths.filter (fun r => r == depsRpath)).length = 1) ∧
    (∀ so : SoFile, bundleSo (bundleSo so) = bundleSo so) ∧
    (∀ (existing : List String) (w : Wheel),
      (bundleCore existing w).sos = w.sos.map bundleSo) ∧
    (∀ files w e es,
      libs_to_bundle.filter (fun l => files.contains l) = e :: es →
      (bundle_dependencies (some files)
        ((bundle_dependencies (some files) (some w)).wheel)).wheel
        = (bundle_dependencies (some files) (some w)).wheel) := by
  refine ⟨?_, bundleSo_idem, fun _ _ => rfl, ?_⟩
  · intro so h1 h2
    have hfr : so.rpaths.filter (fun r => r == depsRpath) = [] := by
      rw [List.filter_eq_nil_iff]
      intro r hr hbeq
      have hrd : r = depsRpath := by simpa using hbeq
      have hfalse : strContains r depsRpath = false := by
        have hall := List.any_eq_false.mp h2
        exact Bool.eq_false_iff.mpr (hall r (List.mem_append_left _ hr))
      rw [hrd, strContains_self] at hfalse
      simp at hfalse
    simp [bundleSo, ensure_deps_rpath, h1, h2, List.filter_append, hfr]
  · intro files w e es hf
    simp only [bundle_dependencies]
    rw [hf]
    exact congrArg some (bundleCore_idem (e :: es) w)

/-- C7 (witness): a fresh consumer library gets exactly one deps entry,
and bundling the same archive twice returns the same wheel. -/
theorem c7_witness :
    ((bundleSo ⟨"libfoo.so", [], []⟩).rpaths.filter
      (fun r => r == depsRpath)).length = 1 ∧
    (bundle_dependencies (some ["libnrf-ble-driver-sd_api_v2.4.1.4.dylib"])
      ((bundle_dependencies (some ["libnrf-ble-driver-sd_api_v2.4.1.4.dylib"])
        (some ⟨[⟨"libfoo.so", [], []⟩], [], []⟩)).wheel)).wheel
      = (bundle_dependencies (some ["libnrf-ble-driver-sd_api_v2.4.1.4.dylib"])
          (some ⟨[⟨"libfoo.so", [], []⟩], [], []⟩)).wheel :=
  ⟨c7_deps_rpath.1 ⟨"libfoo.so", [], []⟩ (by decide) (by decide),
   c7_deps_rpath.2.2.2 ["libnrf-ble-driver-sd_api_v2.4.1.4.dylib"]
     ⟨[⟨"libfoo.so", [], []⟩], [], []⟩
     "libnrf-ble-driver-sd_api_v2.4.1.4.dylib" [] (by decide)⟩

/-! ### Lemmas about the Archive Patcher -/

theorem string_mk_data (x : String) : String.mk x.data = x := by
  cases x; rfl

theorem soLine_data (x : String) :
    (soLine x).data = Char.ofNat 9 :: (x.data ++ suffixCompat.data) := by
  show ("\t" ++ x ++ suffixCompat).data = _
  rw [sdata_append, sdata_append, List.append_assoc]
  rw [show "\t".data = [Char.ofNat 9] from by decide]
  rfl

/-- A non-empty needle cannot occur in the empty haystack. -/
theorem containsL_ne_nil {n h : List Char} (hn : n ≠ [])
    (hc : containsL n h = true) : h ≠ [] := by
  intro he
  subst he
  cases n with
  | nil => exact hn rfl
  | cons c cs => simp [containsL, startsWithL] at hc

/-- A whitespace-free needle that does not occur in the rendered line's
version suffix occurs in the rendered `otool -L` line exactly when it
occurs in the dependency path itself. -/
theorem contains_soLine_iff (x n : String)
    (hne : n.data ≠ [])
    (hsp : n.data.all (fun c => !(pySpace c)) = true)
    (hsuf : containsL n.data suffixCompat.data = false) :
    strContains (soLine x) n = strContains x n := by
  have hchars := List.all_eq_true.mp hsp
  apply Bool.eq_iff_iff.mpr
  constructor
  · intro h
    have h0 : containsL n.data
        (Char.ofNat 9 :: (x.data ++ suffixCompat.data)) = true := by
      rw [strContains, soLine_data] at h
      exact h
    have h1 : (startsWithL n.data (Char.ofNat 9 :: (x.data ++ suffixCompat.data))
        || containsL n.data (x.data ++ suffixCompat.data)) = true := by
      simpa [containsL] using h0
    rcases Bool.or_eq_true_iff.mp h1 with hsw | hin
    · cases hn : n.data with
      | nil => exact absurd hn hne
      | cons c cs =>
        rw [hn] at hsw
        have hc9 : c = Char.ofNat 9 :=
          eq_of_beq (Bool.and_eq_true_iff.mp (by simpa [startsWithL] using hsw)).1
        have : (!(pySpace c)) = true := hchars c (by rw [hn]; simp)
        rw [hc9] at this
        simp [pySpace, Char.ofNat] at this
    · rcases containsL_append_cases n.data x.data suffixCompat.data hin
        with hx | hs | ⟨c, hhead, hcmem⟩
      · exact hx
      · rw [hs] at hsuf; cases hsuf
      · have h32 : suffixCompat.data.head? = some (Char.ofNat 32) := by decide
        rw [h32] at hhead
        have hc32 : c = Char.ofNat 32 := (Option.some.inj hhead).symm
        have : (!(pySpace c)) = true := hchars c hcmem
        rw [hc32] at this
        simp [pySpace, Char.ofNat] at this
  · intro h
    show containsL n.data (soLine x).data = true
    rw [soLine_data]
    exact containsL_cons _ (containsL_append_left _ h)

/-- A rendered dependency line matches the rewrite condition exactly when
the dependency path itself contains both needles. -/
theorem needsFix_soLine (x : String) :
    needsFix (soLine x) = needsFixD x := by
  unfold needsFix needsFixD
  rw [contains_soLine_iff x "@rpath/libpython" (by decide) (by decide) (by decide),
      contains_soLine_iff x ".dylib" (by decide) (by decide) (by decide)]

theorem takeWhile_append_stop {q : Char → Bool} :
    ∀ (a b : List Char), (∀ c ∈ a, q c = true) →
    (∀ c, b.head? = some c → q c = false) →
    (a ++ b).takeWhile q = a := by
  intro a
  induction a with
  | nil =>
    intro b _ hb
    cases b with
    | nil => rfl
    | cons c t => simp [List.takeWhile_cons, hb c rfl]
  | cons c t ih =>
    intro b ha hb
    have hc : q c = true := ha c (List.mem_cons_self c t)
    simp [List.takeWhile_cons, hc,
      ih b (fun d hd => ha d (List.mem_cons_of_mem c hd)) hb]

/-- `line.strip().split()[0]` recovers the dependency path from its
rendered line when the path is non-empty and whitespace-free. -/
theorem firstToken_soLine (x : String) (hne : x.data ≠ [])
    (hsp : x.data.all (fun c => !(pySpace c)) = true) :
    firstToken (soLine x) = x := by
  have hq : ∀ c ∈ x.data, (!(pySpace c)) = true := List.all_eq_true.mp hsp
  have hdrop : ((soLine x).data.dropWhile pySpace)
      = x.data ++ suffixCompat.data := by
    rw [soLine_data, List.dropWhile_cons]
    cases hx : x.data with
    | nil => exact absurd hx hne
    | cons c t =>
      have hc : pySpace c = false := by
        have := hq c (by rw [hx]; simp)
        simpa using this
      simp [show pySpace (Char.ofNat 9) = true from by decide,
        List.dropWhile_cons, hc]
  have hstop : ∀ c, suffixCompat.data.head? = some c →
      (!(pySpace c)) = false := by
    intro c hc
    have h32 : suffixCompat.data.head? = some (Char.ofNat 32) := by decide
    rw [h32] at hc
    have hc32 : c = Char.ofNat 32 := (Option.some.inj hc).symm
    rw [hc32]
    decide
  unfold firstToken
  rw [hdrop, takeWhile_append_stop x.data suffixCompat.data hq hstop]

/-- Elements after the sequence of `install_name_tool -change old R`
rewrites: each is the replacement `R`, or an original entry equal to none
of the old references. -/
theorem foldl_replace_mem (R : String) :
    ∀ (olds : List String) (ds : List String) (x : String),
    x ∈ olds.foldl (fun ds old =>
      ds.map (fun d => if d == old then R else d)) ds →
    x = R ∨ (x ∈ ds ∧ x ∉ olds) := by
  intro olds
  induction olds with
  | nil => exact fun ds x hx => Or.inr ⟨hx, by simp⟩
  | cons o os ih =>
    intro ds x hx
    rcases ih (ds.map (fun d => if d == o then R else d)) x hx
      with h | ⟨hmem, hnot⟩
    · exact Or.inl h
    · rcases List.mem_map.mp hmem with ⟨d, hd, hrepl⟩
      cases hdo : d == o with
      | true =>
        rw [hdo] at hrepl
        simp at hrepl
        exact Or.inl hrepl.symm
      | false =>
        rw [hdo] at hrepl
        simp at hrepl
        subst hrepl
        refine Or.inr ⟨hd, ?_⟩
        intro hmem'
        rcases List.mem_cons.mp hmem' with h1 | h2
        · rw [h1] at hdo
          simp at hdo
        · exact hnot h2

/-- With a non-matching header line and whitespace-free dependency paths,
the collected old references are exactly the matching dependency
entries. -/
theorem changes_eq (soPath : String) (deps : List String)
    (hhd : needsFix (soPath ++ ":") = false)
    (hsp : ∀ d ∈ deps, d.data.all (fun c => !(pySpace c)) = true) :
    ((otoolLines soPath deps).filter needsFix).map firstToken
      = deps.filter needsFixD := by
  unfold otoolLines
  rw [List.filter_cons_of_neg (by simp [hhd])]
  rw [List.filter_map]
  have hpred : deps.filter (needsFix ∘ soLine) = deps.filter needsFixD :=
    List.filter_congr (fun d _ => by simp [Function.comp, needsFix_soLine d])
  rw [hpred, List.map_map]
  have hmapid : List.map (firstToken ∘ soLine) (deps.filter needsFixD)
      = List.map id (deps.filter needsFixD) := by
    apply List.map_congr_left
    intro d hd
    have hd' : d ∈ deps := List.mem_of_mem_filter hd
    have hfix : needsFixD d = true := List.of_mem_filter hd
    have hcont : strContains d "@rpath/libpython" = true :=
      (Bool.and_eq_true_iff.mp hfix).1
    have hne : d.data ≠ [] :=
      containsL_ne_nil (n := "@rpath/libpython".data) (by decide) hcont
    exact firstToken_soLine d hne (hsp d hd')
  rw [hmapid, List.map_id]

/-- When no line of the dependency table matches the rewrite condition,
`fix_so_file` reports `changed = false` and leaves the entries
untouched. -/
theorem fix_nochange (soPath : String) (deps : List String)
    (h : ∀ l ∈ otoolLines soPath deps, needsFix l = false) :
    fix_so_file soPath deps = (false, deps) := by
  have hf : (otoolLines soPath deps).filter needsFix = [] := by
    rw [List.filter_eq_nil_iff]
    intro l hl
    simp [h l hl]
  simp [fix_so_file, hf]

/-! ### Claim theorems: Archive Patcher -/

/-- C8: a shared library none of whose dependency-table lines contains a
version-specific `@rpath/libpython...dylib` reference is returned with
`changed = false` and unmodified entries; in particular a second run on
the output of a first run (for a library with well-formed, whitespace-free
entry paths and a non-matching header line) reports `changed = false` and
changes nothing; and an archive all of whose libraries are in that state
is left untouched, with no backup written. -/
theorem c8_patcher_idem :
    (∀ soPath deps,
      (∀ l ∈ otoolLines soPath deps, needsFix l = false) →
      fix_so_file soPath deps = (false, deps)) ∧
    (∀ soPath deps,
      needsFix (soPath ++ ":") = false →
      (∀ d ∈ deps, d.data.all (fun c => !(pySpace c)) = true) →
      fix_so_file soPath ((fix_so_file soPath deps).2)
        = (false, (fix_so_file soPath deps).2)) ∧
    (∀ w : PWheel,
      (∀ so ∈ w.sos, ∀ l ∈ otoolLines so.1 so.2, needsFix l = false) →
      fix_wheel w = (w, false)) := by
  refine ⟨fix_nochange, ?_, ?_⟩
  · intro soPath deps hhd hsp
    apply fix_nochange
    intro l hl
    have hnew : (fix_so_file soPath deps).2
        = (((otoolLines soPath deps).filter needsFix).map firstToken).foldl
          (fun ds old =>
            ds.map (fun d => if d == old then "@rpath/Python" else d)) deps :=
      rfl
    rcases List.mem_cons.mp hl with hhead | htail
    · rw [hhead]; exact hhd
    · rcases List.mem_map.mp htail with ⟨d, hd, hline⟩
      rw [hnew] at hd
      rcases foldl_replace_mem "@rpath/Python" _ deps d hd
        with hR | ⟨hmem, hnot⟩
      · rw [← hline, hR, needsFix_soLine]
        decide
      · rw [← hline, needsFix_soLine]
        rw [changes_eq soPath deps hhd hsp] at hnot
        cases hfd : needsFixD d with
        | true => exact absurd (List.mem_filter.mpr ⟨hmem, hfd⟩) hnot
        | false => rfl
  · intro w h
    have hany : w.sos.any (fun so => (fix_so_file so.1 so.2).1) = false := by
      rw [List.any_eq_false]
      intro so hso
      simp [fix_nochange so.1 so.2 (h so hso)]
    simp [fix_wheel, hany]

/-- C8 (witness): a library with only a system dependency is unchanged
with `changed = false`; a second run on a freshly generalized library
reports `changed = false` and changes nothing. -/
theorem c8_witness :
    fix_so_file "a.so" ["/usr/lib/libSystem.B.dylib"]
      = (false, ["/usr/lib/libSystem.B.dylib"]) ∧
    fix_so_file "a.so" ((fix_so_file "a.so" ["@rpath/libpython3.10.dylib"]).2)
      = (false, (fix_so_file "a.so" ["@rpath/libpython3.10.dylib"]).2) :=
  ⟨c8_patcher_idem.1 "a.so" ["/usr/lib/libSystem.B.dylib"] (by decide),
   c8_patcher_idem.2.1 "a.so" ["@rpath/libpython3.10.dylib"]
     (by decide) (by decide)⟩

/-- C10: when no shared library inside the archive needs a
version-specific reference rewritten, `fix_wheel` returns the archive
byte-identical and creates no backup file, leaving the containing
directory's entries unchanged. -/
theorem c10_no_repack :
    ∀ w : PWheel,
    (∀ so ∈ w.sos, (fix_so_file so.1 so.2).1 = false) →
    fix_wheel w = (w, false) := by
  intro w h
  have hany : w.sos.any (fun so => (fix_so_file so.1 so.2).1) = false := by
    rw [List.any_eq_false]
    intro so hso
    simp [h so hso]
  simp [fix_wheel, hany]

/-- C10 (witness): an archive whose only library already uses
`@rpath/Python` and a system dependency is returned unchanged with no
backup. -/
theorem c10_witness :
    fix_wheel ⟨[("pc_ble_driver_py/lib/nrf_ble_driver_sd_api_v5.so",
        ["/usr/lib/libSystem.B.dylib", "@rpath/Python"])], ["METADATA"]⟩
      = (⟨[("pc_ble_driver_py/lib/nrf_ble_driver_sd_api_v5.so",
          ["/usr/lib/libSystem.B.dylib", "@rpath/Python"])], ["METADATA"]⟩,
         false) :=
  c10_no_repack _ (by decide)

end PcBleDriver
